import Mathlib

/-!
# Verification of the mwparserfromhell parser package

The repository excerpt contains the orchestrator module
(src/mwparserfromhell/parser/__init__.py): the ParserError exception, the
use_c backend flag set at import time, and the Parser class whose parse
method feeds the tokenizer output into the builder.  The tokenizer and the
builder themselves (modules .tokenizer and .builder) are not part of the
excerpt, so they are modelled here from the specification (spec.md,
sections 2-4): a context-sensitive speculative scanner with
rollback-to-text on failure, a nesting-depth safety bound, a
skip_style_tags mode, and a single-pass stack-based builder.

The modelled grammar fragment covers the two constructs the specified
properties exercise as nesting constructs: templates (opened by two
braces, closed by two braces) and style runs (opened and closed by two
apostrophes, confined to one line).  Template interiors are modelled as a
plain child tree; the name/parameter split, headings, links, tags and the
other token kinds of the full vocabulary are not needed by any of the
properties proved below and are omitted from the fragment.

Strings are lists of characters.  Machine-level details (Python str
interning etc.) are irrelevant to the properties at hand.
-/

/-- Strings of the embedding: lists of characters. -/
abbrev Str := List Char

/-- Opening-brace character (written via its code point so that brace
characters never appear inside character literals). -/
def obChar : Char := Char.ofNat 123

/-- Closing-brace character. -/
def cbChar : Char := Char.ofNat 125

/-- Apostrophe character (the wiki style marker). -/
def aposChar : Char := Char.ofNat 39

/-- Newline character. -/
def nlChar : Char := Char.ofNat 10

/-- Token vocabulary for the modelled grammar fragment.
Modelled from the spec: the token stream model of section 2/3 (typed
tokens whose sequence order encodes nesting via matched open/close
pairs); restricted to the template and style-run constructs.  A text
token carries a single character; the builder merges adjacent text
tokens into one Text node, as section 4.2 describes. -/
inductive Token where
  | text (c : Char)
  | tplOpen
  | tplClose
  | styOpen
  | styClose
deriving DecidableEq

/-- Markup reproduced by one token (the round-trip contribution of the
token itself). -/
def Token.str : Token → Str
  | Token.text c => [c]
  | Token.tplOpen => [obChar, obChar]
  | Token.tplClose => [cbChar, cbChar]
  | Token.styOpen => [aposChar, aposChar]
  | Token.styClose => [aposChar, aposChar]

/-- Markup reproduced by a token sequence. -/
def tokensStr (ts : List Token) : Str := (ts.map Token.str).flatten

/-- Scanner context, the innermost speculative construct being scanned.
Modelled from the spec: the context stack of section 4.1; the stack
itself is the chain of recursive scanner invocations, each invocation
carrying its own context. -/
inductive Mode where
  | top
  | tpl
  | sty
deriving DecidableEq

/-- Markup consumed by the closing delimiter of a context. -/
def closeStr : Mode → Str
  | Mode.top => []
  | Mode.tpl => [cbChar, cbChar]
  | Mode.sty => [aposChar, aposChar]

/-- Nesting-depth safety bound.
Modelled from the spec: section 4.1 item 4, the bound that guards
against pathological/adversarial input (the pure-Python tokenizer uses
forty). -/
def maxDepth : Nat := 40

/-- Speculative scanner.
Modelled from the spec: section 4.1.  The scanner consumes the character
stream; at each position it checks the leading characters against the
opening delimiters legal in the current context, pushes a context and
recurses on a match, and on failure of the speculative attempt rolls
back every token emitted by the attempt, restores the cursor to the
opening delimiter, emits that position as literal text and advances one
unit (section 4.1.5).  End of input inside a non-top context and a
newline inside a style run are failures (section 4.1.4); a style opener
is ignored entirely when skip is set (section 4.1.6); an opener is
ignored once the depth bound is reached.  The fuel argument bounds the
recursion; the wrapper below supplies fuel provably sufficient for every
input.  In a successful result the returned tokens cover the input up to
the context's closing delimiter, and the remainder after that delimiter
is returned unconsumed. -/
def scanF : Nat → Mode → Str → Nat → Bool → Option (List Token × Str)
  | 0, _, _, _, _ => none
  | _ + 1, mode, [], _, _ =>
      if mode = Mode.top then some ([], []) else none
  | fuel + 1, mode, [c1], depth, skip =>
      if mode = Mode.sty ∧ c1 = nlChar then none
      else
        (scanF fuel mode [] depth skip).map
          (fun qr => (Token.text c1 :: qr.1, qr.2))
  | fuel + 1, mode, c1 :: c2 :: rest2, depth, skip =>
      if mode = Mode.tpl ∧ c1 = cbChar ∧ c2 = cbChar then
        some ([], rest2)
      else if mode = Mode.sty ∧ c1 = aposChar ∧ c2 = aposChar then
        some ([], rest2)
      else if mode = Mode.sty ∧ c1 = nlChar then
        none
      else if c1 = obChar ∧ c2 = obChar ∧ depth < maxDepth then
        match scanF fuel Mode.tpl rest2 (depth + 1) skip with
        | some pr =>
            (scanF fuel mode pr.2 depth skip).map
              (fun qr => (Token.tplOpen :: pr.1 ++ Token.tplClose :: qr.1, qr.2))
        | none =>
            (scanF fuel mode (c2 :: rest2) depth skip).map
              (fun qr => (Token.text c1 :: qr.1, qr.2))
      else if c1 = aposChar ∧ c2 = aposChar ∧ skip = false ∧ depth < maxDepth then
        match scanF fuel Mode.sty rest2 (depth + 1) skip with
        | some pr =>
            (scanF fuel mode pr.2 depth skip).map
              (fun qr => (Token.styOpen :: pr.1 ++ Token.styClose :: qr.1, qr.2))
        | none =>
            (scanF fuel mode (c2 :: rest2) depth skip).map
              (fun qr => (Token.text c1 :: qr.1, qr.2))
      else
        (scanF fuel mode (c2 :: rest2) depth skip).map
          (fun qr => (Token.text c1 :: qr.1, qr.2))

/-- Fuel that provably suffices for every input (worst-case speculative
backtracking is exponential in the input length; see scan_top_ne_none
below). -/
def scanFuel (s : Str) : Nat := 2 ^ (s.length + 1)

/-- Tokenizer entry point.
Modelled from the spec: tokenize(text, initial_context_flags,
skip_style_tags) of section 4.1.  The context-flag bit-set suppresses
constructs (external links etc.) that the modelled fragment does not
contain, so it does not alter the fragment's scan; it is accepted and
carried to keep the contract's arity.  The fallback branch is provably
unreachable (scan_top_ne_none below). -/
def Tokenizer.tokenize (text : Str) (context : Nat) (skip : Bool) : List Token :=
  match scanF (scanFuel text) Mode.top text 0 skip with
  | some pr => pr.1
  | none => text.map Token.text

/-- Tree nodes produced by the builder.
Modelled from the spec: the node model of section 3, restricted to the
fragment's kinds.  Text is a leaf holding an opaque string; a template
and a style run hold their interior as a child tree.  The root of a
parse is an unnamed container, represented below simply as the list of
top-level children. -/
inductive Node where
  | text (s : Str)
  | template (children : List Node)
  | styled (children : List Node)

mutual

/-- Markup reproduced by one node: its own markup plus the stringified
form of its children, in order (the stringification of section 3's
round-trip invariant). -/
def Node.str : Node → Str
  | Node.text s => s
  | Node.template cs => obChar :: obChar :: nodesStr cs ++ [cbChar, cbChar]
  | Node.styled cs => aposChar :: aposChar :: nodesStr cs ++ [aposChar, aposChar]

/-- Markup reproduced by a sequence of sibling nodes. -/
def nodesStr : List Node → Str
  | [] => []
  | n :: ns => Node.str n ++ nodesStr ns

end

mutual

/-- Number of template nodes in one tree (used to observe how many
nesting levels were recognised as constructs rather than degraded to
literal text). -/
def Node.tplCount : Node → Nat
  | Node.text _ => 0
  | Node.template cs => 1 + nodesTplCount cs
  | Node.styled cs => nodesTplCount cs

/-- Number of template nodes in a sequence of sibling nodes. -/
def nodesTplCount : List Node → Nat
  | [] => 0
  | n :: ns => Node.tplCount n + nodesTplCount ns

end

/-- Kind of an in-progress builder frame. -/
inductive FrameKind where
  | root
  | tpl
  | sty
deriving DecidableEq

/-- In-progress node frame of the builder.
Modelled from the spec: section 4.2: a frame accumulates completed
children in order plus a pending run of text characters. -/
structure Frame where
  kind : FrameKind
  acc : List Node
  pending : Str

/-- Children of a finalized frame: the accumulated children followed by
the pending text wrapped into a Text node (none is added when the
pending run is empty, so pure-text input yields exactly one Text node
and empty input yields no node). -/
def flushAcc (f : Frame) : List Node :=
  if f.pending = [] then f.acc else f.acc ++ [Node.text f.pending]

/-- Frame extended by one completed child node (the pending text is
flushed in front of it, keeping document order). -/
def appendChild (f : Frame) (n : Node) : Frame :=
  { kind := f.kind, acc := flushAcc f ++ [n], pending := [] }

/-- Frame extended by one character of literal text. -/
def pushText (f : Frame) (c : Char) : Frame :=
  { kind := f.kind, acc := f.acc, pending := f.pending ++ [c] }

/-- Fresh frame for a newly opened construct. -/
def openFrame (k : FrameKind) : Frame := ⟨k, [], []⟩

/-- Single-pass stack-based builder loop.
Modelled from the spec: section 4.2.  A text token appends to the top
frame's pending text; an open token pushes a fresh frame; a close token
finalizes the top frame into a node and attaches it to the frame below;
end of stream with exactly the root frame yields the root's children;
any other terminal state, or a close token that does not match the top
frame, is an internal error (a tokenizer/builder contract violation,
never user input), reported as none. -/
def processToks : List Frame → List Token → Option (List Node)
  | [f], [] => if f.kind = FrameKind.root then some (flushAcc f) else none
  | _, [] => none
  | f :: below, Token.text c :: ts => processToks (pushText f c :: below) ts
  | stack, Token.tplOpen :: ts => processToks (openFrame FrameKind.tpl :: stack) ts
  | stack, Token.styOpen :: ts => processToks (openFrame FrameKind.sty :: stack) ts
  | f :: g :: below, Token.tplClose :: ts =>
      if f.kind = FrameKind.tpl then
        processToks (appendChild g (Node.template (flushAcc f)) :: below) ts
      else none
  | f :: g :: below, Token.styClose :: ts =>
      if f.kind = FrameKind.sty then
        processToks (appendChild g (Node.styled (flushAcc f)) :: below) ts
      else none
  | _, _ :: _ => none

/-- Builder entry point.
Modelled from the spec: build(tokens) of section 4.2, starting from a
frame stack holding exactly the root frame. -/
def Builder.build (ts : List Token) : Option (List Node) :=
  processToks [openFrame FrameKind.root] ts

/-- Two-stage pipeline: tokenizer output fed into the builder (the
composition the orchestrator wires together). -/
def pipeline (text : Str) (context : Nat) (skip : Bool) : Option (List Node) :=
  Builder.build (Tokenizer.tokenize text context skip)

/-! ## Round-trip infrastructure

The central invariant (spec section 3) is proved by one induction over
the scanner: a successful scan of a context covers the consumed input
exactly, and feeding the produced tokens to the builder extends the
frame for that context by markup equal to the consumed input. -/

/-- Builder frame kind opened for a scanner context. -/
def modeKind : Mode → FrameKind
  | Mode.top => FrameKind.root
  | Mode.tpl => FrameKind.tpl
  | Mode.sty => FrameKind.sty

/-- Opening markup owned by a frame kind. -/
def kindOpen : FrameKind → Str
  | FrameKind.root => []
  | FrameKind.tpl => [obChar, obChar]
  | FrameKind.sty => [aposChar, aposChar]

/-- Markup reproduced so far by an in-progress frame: its opening
delimiter, its completed children and its pending text. -/
def frameStr (f : Frame) : Str := kindOpen f.kind ++ nodesStr f.acc ++ f.pending

theorem tokensStr_nil : tokensStr [] = [] := rfl

theorem tokensStr_cons (t : Token) (ts : List Token) :
    tokensStr (t :: ts) = Token.str t ++ tokensStr ts := by
  simp [tokensStr]

theorem tokensStr_append (ts us : List Token) :
    tokensStr (ts ++ us) = tokensStr ts ++ tokensStr us := by
  simp [tokensStr]

theorem nodesStr_append (ns ms : List Node) :
    nodesStr (ns ++ ms) = nodesStr ns ++ nodesStr ms := by
  induction ns with
  | nil => simp [nodesStr]
  | cons n ns ih => simp [nodesStr, ih]

theorem nodesStr_flushAcc (f : Frame) :
    nodesStr (flushAcc f) = nodesStr f.acc ++ f.pending := by
  unfold flushAcc
  split
  · simp [*]
  · simp [nodesStr_append, nodesStr, Node.str]

theorem pushText_kind (f : Frame) (c : Char) : (pushText f c).kind = f.kind := rfl

theorem appendChild_kind (f : Frame) (n : Node) : (appendChild f n).kind = f.kind := rfl

theorem frameStr_pushText (f : Frame) (c : Char) :
    frameStr (pushText f c) = frameStr f ++ [c] := by
  simp [frameStr, pushText]

theorem frameStr_appendChild (f : Frame) (n : Node) :
    frameStr (appendChild f n) = frameStr f ++ Node.str n := by
  simp [frameStr, appendChild, nodesStr_append, nodesStr_flushAcc, nodesStr, Node.str]

theorem frameStr_openFrame (k : FrameKind) :
    frameStr (openFrame k) = kindOpen k := by
  simp [frameStr, openFrame, nodesStr]

theorem processToks_text (f : Frame) (below : List Frame) (c : Char) (ts : List Token) :
    processToks (f :: below) (Token.text c :: ts) = processToks (pushText f c :: below) ts := by
  simp [processToks, pushText]

theorem processToks_tplOpen (st : List Frame) (ts : List Token) :
    processToks st (Token.tplOpen :: ts) = processToks (openFrame FrameKind.tpl :: st) ts := by
  simp [processToks, openFrame]

theorem processToks_styOpen (st : List Frame) (ts : List Token) :
    processToks st (Token.styOpen :: ts) = processToks (openFrame FrameKind.sty :: st) ts := by
  simp [processToks, openFrame]

theorem processToks_tplClose (f g : Frame) (below : List Frame) (ts : List Token)
    (h : f.kind = FrameKind.tpl) :
    processToks (f :: g :: below) (Token.tplClose :: ts)
      = processToks (appendChild g (Node.template (flushAcc f)) :: below) ts := by
  simp [processToks, h]

theorem processToks_styClose (f g : Frame) (below : List Frame) (ts : List Token)
    (h : f.kind = FrameKind.sty) :
    processToks (f :: g :: below) (Token.styClose :: ts)
      = processToks (appendChild g (Node.styled (flushAcc f)) :: below) ts := by
  simp [processToks, h]

theorem processToks_final (f : Frame) :
    processToks [f] [] = if f.kind = FrameKind.root then some (flushAcc f) else none := rfl

/-- Combined correctness statement for one successful scan of a context:
the emitted tokens followed by the context's closing delimiter and the
unconsumed remainder reproduce the consumed input exactly; a top-level
scan consumes everything; and feeding the emitted tokens to the builder
extends the context's frame by exactly the consumed markup, leaving the
rest of the frame stack untouched. -/
def ScanOk (mode : Mode) (s : Str) (toks : List Token) (rem : Str) : Prop :=
  tokensStr toks ++ closeStr mode ++ rem = s ∧
  (mode = Mode.top → rem = []) ∧
  (∀ f below rest, f.kind = modeKind mode →
    ∃ f2, f2.kind = f.kind ∧ frameStr f2 = frameStr f ++ tokensStr toks ∧
      processToks (f :: below) (toks ++ rest) = processToks (f2 :: below) rest)

theorem scanOk_nilCase : ScanOk Mode.top [] [] [] := by
  refine ⟨rfl, fun _ => rfl, fun f below rest _ => ⟨f, rfl, by simp [tokensStr], rfl⟩⟩

theorem scanOk_closeCase (mode : Mode) (rest2 : Str) (hm : mode ≠ Mode.top) :
    ScanOk mode (closeStr mode ++ rest2) [] rest2 := by
  refine ⟨by simp [tokensStr], fun hTop => absurd hTop hm,
    fun f below rest _ => ⟨f, rfl, by simp [tokensStr], rfl⟩⟩

theorem scanOk_textStep (mode : Mode) (c : Char) (s2 : Str) (ts0 : List Token) (r0 : Str)
    (h : ScanOk mode s2 ts0 r0) : ScanOk mode (c :: s2) (Token.text c :: ts0) r0 := by
  obtain ⟨hA, hRem, hB⟩ := h
  refine ⟨?_, hRem, ?_⟩
  · simp only [tokensStr_cons, Token.str, List.append_assoc, List.cons_append, List.nil_append]
    simp only [List.append_assoc] at hA
    rw [hA]
  · intro f below rest hk
    obtain ⟨f2, hk2, hstr2, hproc2⟩ :=
      hB (pushText f c) below rest (by rw [pushText_kind]; exact hk)
    refine ⟨f2, by rw [hk2, pushText_kind], ?_, ?_⟩
    · rw [hstr2, frameStr_pushText, tokensStr_cons]
      simp [Token.str, List.append_assoc]
    · calc processToks (f :: below) ((Token.text c :: ts0) ++ rest)
          = processToks (pushText f c :: below) (ts0 ++ rest) := by
            rw [List.cons_append, processToks_text]
        _ = processToks (f2 :: below) rest := hproc2

theorem scanOk_constructStep (mode innerMode : Mode)
    (openTok closeTok : Token) (mk : List Node → Node)
    (hOpen : Token.str openTok = kindOpen (modeKind innerMode))
    (hClose : Token.str closeTok = closeStr innerMode)
    (hMkStr : ∀ cs, Node.str (mk cs)
        = kindOpen (modeKind innerMode) ++ nodesStr cs ++ closeStr innerMode)
    (hPush : ∀ st ts, processToks st (openTok :: ts)
        = processToks (openFrame (modeKind innerMode) :: st) ts)
    (hPop : ∀ f g below ts, f.kind = modeKind innerMode →
        processToks (f :: g :: below) (closeTok :: ts)
          = processToks (appendChild g (mk (flushAcc f)) :: below) ts)
    (rest2 irem : Str) (inner ts0 : List Token) (r0 : Str)
    (hi : ScanOk innerMode rest2 inner irem)
    (ho : ScanOk mode irem ts0 r0) :
    ScanOk mode (Token.str openTok ++ rest2)
      (openTok :: inner ++ closeTok :: ts0) r0 := by
  obtain ⟨hiA, _, hiB⟩ := hi
  obtain ⟨hoA, hoRem, hoB⟩ := ho
  refine ⟨?_, hoRem, ?_⟩
  · rw [tokensStr_append, tokensStr_cons, tokensStr_cons]
    simp only [List.append_assoc] at hiA hoA ⊢
    rw [hClose, hoA, hiA]
  · intro f below rest hk
    obtain ⟨g2, hgk, hgstr, hgproc⟩ :=
      hiB (openFrame (modeKind innerMode)) (f :: below)
        (closeTok :: (ts0 ++ rest)) rfl
    obtain ⟨f2, hfk, hfstr, hfproc⟩ :=
      hoB (appendChild f (mk (flushAcc g2))) below rest
        (by rw [appendChild_kind]; exact hk)
    have hkk : g2.kind = modeKind innerMode := hgk
    have hg2 : kindOpen (modeKind innerMode) ++ nodesStr g2.acc ++ g2.pending
        = kindOpen (modeKind innerMode) ++ tokensStr inner := by
      calc kindOpen (modeKind innerMode) ++ nodesStr g2.acc ++ g2.pending
          = kindOpen g2.kind ++ nodesStr g2.acc ++ g2.pending := by rw [hkk]
        _ = frameStr g2 := rfl
        _ = frameStr (openFrame (modeKind innerMode)) ++ tokensStr inner := hgstr
        _ = kindOpen (modeKind innerMode) ++ tokensStr inner := by rw [frameStr_openFrame]
    have hg3 : kindOpen (modeKind innerMode) ++ (nodesStr g2.acc ++ g2.pending)
        = kindOpen (modeKind innerMode) ++ tokensStr inner := by
      rw [← List.append_assoc]
      exact hg2
    refine ⟨f2, by rw [hfk, appendChild_kind], ?_, ?_⟩
    · rw [hfstr, frameStr_appendChild, hMkStr, nodesStr_flushAcc, hg3,
        tokensStr_append, tokensStr_cons, tokensStr_cons, hOpen, hClose]
      simp only [List.append_assoc]
    · calc processToks (f :: below) ((openTok :: inner ++ closeTok :: ts0) ++ rest)
          = processToks (f :: below)
              (openTok :: (inner ++ (closeTok :: (ts0 ++ rest)))) := by
            simp [List.append_assoc]
        _ = processToks (openFrame (modeKind innerMode) :: f :: below)
              (inner ++ (closeTok :: (ts0 ++ rest))) := hPush _ _
        _ = processToks (g2 :: f :: below) (closeTok :: (ts0 ++ rest)) := hgproc
        _ = processToks (appendChild f (mk (flushAcc g2)) :: below) (ts0 ++ rest) :=
            hPop _ _ _ _ hgk
        _ = processToks (f2 :: below) rest := hfproc

/-- Main scanner invariant: every successful scan satisfies ScanOk.
Induction over the fuel, following the scanner's case structure. -/
theorem scan_main : ∀ fuel mode s depth skip toks rem,
    scanF fuel mode s depth skip = some (toks, rem) → ScanOk mode s toks rem := by
  intro fuel
  induction fuel with
  | zero =>
    intro mode s depth skip toks rem h
    simp [scanF] at h
  | succ fuel ih =>
    intro mode s depth skip toks rem h
    cases s with
    | nil =>
      simp only [scanF] at h
      split at h
      next hm =>
        simp only [Option.some.injEq, Prod.mk.injEq] at h
        obtain ⟨h1, h2⟩ := h
        subst hm; subst h1; subst h2
        exact scanOk_nilCase
      next hm => exact absurd h (by simp)
    | cons c1 s1 =>
      cases s1 with
      | nil =>
        simp only [scanF] at h
        split at h
        next h1 => exact absurd h (by simp)
        next h1 =>
          cases hq : scanF fuel mode [] depth skip with
          | none => rw [hq] at h; simp at h
          | some qr =>
            rw [hq] at h
            simp only [Option.map_some', Option.some.injEq, Prod.mk.injEq] at h
            obtain ⟨h2, h3⟩ := h
            subst h2; subst h3
            exact scanOk_textStep mode c1 [] qr.1 qr.2 (ih mode [] depth skip qr.1 qr.2 (by rw [hq]))
      | cons c2 rest2 =>
        simp only [scanF] at h
        split at h
        next hcl =>
          obtain ⟨hm, hc1, hc2⟩ := hcl
          subst hm; subst hc1; subst hc2
          simp only [Option.some.injEq, Prod.mk.injEq] at h
          obtain ⟨h1, h2⟩ := h
          subst h1; subst h2
          exact scanOk_closeCase Mode.tpl rest2 (by decide)
        next hcl =>
          split at h
          next hcs =>
            obtain ⟨hm, hc1, hc2⟩ := hcs
            subst hm; subst hc1; subst hc2
            simp only [Option.some.injEq, Prod.mk.injEq] at h
            obtain ⟨h1, h2⟩ := h
            subst h1; subst h2
            exact scanOk_closeCase Mode.sty rest2 (by decide)
          next hcs =>
            split at h
            next hnl => exact absurd h (by simp)
            next hnl =>
              split at h
              next htpl =>
                obtain ⟨hc1, hc2, hdep⟩ := htpl
                subst hc1; subst hc2
                split at h
                next pr heq =>
                  cases hq : scanF fuel mode pr.2 depth skip with
                  | none => rw [hq] at h; simp at h
                  | some qr =>
                    rw [hq] at h
                    simp only [Option.map_some', Option.some.injEq, Prod.mk.injEq] at h
                    obtain ⟨h2, h3⟩ := h
                    subst h2; subst h3
                    exact scanOk_constructStep mode Mode.tpl Token.tplOpen Token.tplClose
                      Node.template rfl rfl (fun cs => rfl) processToks_tplOpen
                      (fun f g below ts hh => processToks_tplClose f g below ts hh)
                      rest2 pr.2 pr.1 qr.1 qr.2
                      (ih Mode.tpl rest2 (depth + 1) skip pr.1 pr.2 (by rw [heq]))
                      (ih mode pr.2 depth skip qr.1 qr.2 (by rw [hq]))
                next heq =>
                  cases hq : scanF fuel mode (obChar :: rest2) depth skip with
                  | none => rw [hq] at h; simp at h
                  | some qr =>
                    rw [hq] at h
                    simp only [Option.map_some', Option.some.injEq, Prod.mk.injEq] at h
                    obtain ⟨h2, h3⟩ := h
                    subst h2; subst h3
                    exact scanOk_textStep mode obChar (obChar :: rest2) qr.1 qr.2
                      (ih mode (obChar :: rest2) depth skip qr.1 qr.2 (by rw [hq]))
              next htpl =>
                split at h
                next hsty =>
                  obtain ⟨hc1, hc2, hskip, hdep⟩ := hsty
                  subst hc1; subst hc2; subst hskip
                  split at h
                  next pr heq =>
                    cases hq : scanF fuel mode pr.2 depth false with
                    | none => rw [hq] at h; simp at h
                    | some qr =>
                      rw [hq] at h
                      simp only [Option.map_some', Option.some.injEq, Prod.mk.injEq] at h
                      obtain ⟨h2, h3⟩ := h
                      subst h2; subst h3
                      exact scanOk_constructStep mode Mode.sty Token.styOpen Token.styClose
                        Node.styled rfl rfl (fun cs => rfl) processToks_styOpen
                        (fun f g below ts hh => processToks_styClose f g below ts hh)
                        rest2 pr.2 pr.1 qr.1 qr.2
                        (ih Mode.sty rest2 (depth + 1) false pr.1 pr.2 (by rw [heq]))
                        (ih mode pr.2 depth false qr.1 qr.2 (by rw [hq]))
                  next heq =>
                    cases hq : scanF fuel mode (aposChar :: rest2) depth false with
                    | none => rw [hq] at h; simp at h
                    | some qr =>
                      rw [hq] at h
                      simp only [Option.map_some', Option.some.injEq, Prod.mk.injEq] at h
                      obtain ⟨h2, h3⟩ := h
                      subst h2; subst h3
                      exact scanOk_textStep mode aposChar (aposChar :: rest2) qr.1 qr.2
                        (ih mode (aposChar :: rest2) depth false qr.1 qr.2 (by rw [hq]))
                next hsty =>
                  cases hq : scanF fuel mode (c2 :: rest2) depth skip with
                  | none => rw [hq] at h; simp at h
                  | some qr =>
                    rw [hq] at h
                    simp only [Option.map_some', Option.some.injEq, Prod.mk.injEq] at h
                    obtain ⟨h2, h3⟩ := h
                    subst h2; subst h3
                    exact scanOk_textStep mode c1 (c2 :: rest2) qr.1 qr.2
                      (ih mode (c2 :: rest2) depth skip qr.1 qr.2 (by rw [hq]))

/-- Fuel sufficiency: a top-level scan never runs out of fuel when the
fuel is at least two to the power of one more than the input length
(each step spends one unit and recurses on strictly shorter input, at
most doubling the work through a failed speculative attempt). -/
theorem scan_top_ne_none : ∀ n fuel s depth skip, s.length ≤ n →
    2 ^ (n + 1) ≤ fuel → scanF fuel Mode.top s depth skip ≠ none := by
  intro n
  induction n with
  | zero =>
    intro fuel s depth skip hlen hfuel
    have hs : s = [] := List.length_eq_zero.mp (Nat.le_zero.mp hlen)
    subst hs
    cases fuel with
    | zero => simp at hfuel
    | succ f => simp [scanF]
  | succ n ih =>
    intro fuel s depth skip hlen hfuel
    cases fuel with
    | zero =>
      have := Nat.two_pow_pos (n + 1 + 1)
      omega
    | succ f =>
      have hf : 2 ^ (n + 1) ≤ f := by
        have h1 : 0 < 2 ^ (n + 1) := Nat.two_pow_pos _
        have h2 : 2 ^ (n + 1 + 1) = 2 * 2 ^ (n + 1) := by ring
        omega
      cases s with
      | nil => simp [scanF]
      | cons c1 s1 =>
        cases s1 with
        | nil =>
          simp only [scanF]
          rw [if_neg (by simp)]
          rw [Ne, Option.map_eq_none']
          exact ih f [] depth skip (by simp) hf
        | cons c2 rest2 =>
          have hlen2 : rest2.length + 2 ≤ n + 1 := by
            simpa using hlen
          simp only [scanF]
          rw [if_neg (by simp), if_neg (by simp), if_neg (by simp)]
          split
          next htpl =>
            split
            next pr heq =>
              rw [Ne, Option.map_eq_none']
              have hA := (scan_main f Mode.tpl rest2 (depth + 1) skip pr.1 pr.2
                (by rw [heq])).1
              have hL := congrArg List.length hA
              simp [closeStr] at hL
              exact ih f pr.2 depth skip (by omega) hf
            next heq =>
              rw [Ne, Option.map_eq_none']
              exact ih f (c2 :: rest2) depth skip (by simp; omega) hf
          next htpl =>
            split
            next hsty =>
              split
              next pr heq =>
                rw [Ne, Option.map_eq_none']
                have hA := (scan_main f Mode.sty rest2 (depth + 1) skip pr.1 pr.2
                  (by rw [heq])).1
                have hL := congrArg List.length hA
                simp [closeStr] at hL
                exact ih f pr.2 depth skip (by omega) hf
              next heq =>
                rw [Ne, Option.map_eq_none']
                exact ih f (c2 :: rest2) depth skip (by simp; omega) hf
            next hsty =>
              rw [Ne, Option.map_eq_none']
              exact ih f (c2 :: rest2) depth skip (by simp; omega) hf

/-- Tokenizer totality: the wrapper's fuel is always sufficient, so the
tokenizer's output is exactly the successful top-level scan, which
consumes the whole input. -/
theorem tokenize_spec (text : Str) (context : Nat) (skip : Bool) :
    scanF (scanFuel text) Mode.top text 0 skip
      = some (Tokenizer.tokenize text context skip, []) := by
  have hne := scan_top_ne_none text.length (scanFuel text) text 0 skip le_rfl
    (by rw [scanFuel])
  cases hq : scanF (scanFuel text) Mode.top text 0 skip with
  | none => exact absurd hq hne
  | some pr =>
    have hOk := scan_main (scanFuel text) Mode.top text 0 skip pr.1 pr.2 (by rw [hq])
    have hrem : pr.2 = [] := hOk.2.1 rfl
    simp only [Tokenizer.tokenize]
    rw [hq, ← hrem]

/-- Round-trip and totality of the two-stage pipeline: every input
yields a tree, and stringifying that tree reproduces the input. -/
theorem pipeline_ok (text : Str) (context : Nat) (skip : Bool) :
    ∃ ns, pipeline text context skip = some ns ∧ nodesStr ns = text := by
  have hts := tokenize_spec text context skip
  have hOk := scan_main (scanFuel text) Mode.top text 0 skip
    (Tokenizer.tokenize text context skip) [] hts
  obtain ⟨hA, _, hB⟩ := hOk
  obtain ⟨f2, hk2, hstr2, hproc2⟩ := hB (openFrame FrameKind.root) [] [] rfl
  have hk2r : f2.kind = FrameKind.root := hk2
  refine ⟨flushAcc f2, ?_, ?_⟩
  · unfold pipeline Builder.build
    calc processToks [openFrame FrameKind.root] (Tokenizer.tokenize text context skip)
        = processToks [openFrame FrameKind.root]
            (Tokenizer.tokenize text context skip ++ []) := by simp
      _ = processToks [f2] [] := hproc2
      _ = some (flushAcc f2) := by rw [processToks_final, if_pos hk2r]
  · have hA2 : tokensStr (Tokenizer.tokenize text context skip) = text := by
      simpa [closeStr] using hA
    have hfr : frameStr f2 = tokensStr (Tokenizer.tokenize text context skip) := by
      rw [hstr2, frameStr_openFrame]
      simp [kindOpen]
    rw [nodesStr_flushAcc]
    calc nodesStr f2.acc ++ f2.pending
        = kindOpen f2.kind ++ nodesStr f2.acc ++ f2.pending := by
          rw [hk2]
          simp [kindOpen, openFrame]
      _ = frameStr f2 := rfl
      _ = text := by rw [hfr, hA2]

/-! ## The orchestrator module (src/mwparserfromhell/parser/__init__.py)

From here on the definitions embed the source file itself: the
ParserError exception (lines 29-39), the import-time backend flag
(lines 44-51) and the Parser class (lines 53-94). -/

/-- Python str.format with the positional placeholder for argument
zero: scanning the template, every occurrence of the three-character
placeholder (open brace, digit zero, close brace) is replaced by the
argument; all other characters are kept. -/
def pyFormat0 : Str → Str → Str
  | [], _ => []
  | [c1], _ => [c1]
  | [c1, c2], _ => [c1, c2]
  | c1 :: c2 :: c3 :: rest, arg =>
      if c1 = obChar ∧ c2 = '0' ∧ c3 = cbChar then arg ++ pyFormat0 rest arg
      else c1 :: pyFormat0 (c2 :: c3 :: rest) arg

/-- Message template used by ParserError.__init__ (source line 38). -/
def parserErrorTemplate : Str :=
  "This is a bug and should be reported. Info: {0}.".toList

/-- ParserError (source lines 29-39): the internal-error exception; its
only data is the formatted message.  It signals an impossible internal
state of the tokenizer/builder pair, never invalid wikicode. -/
structure ParserError where
  msg : Str

/-- ParserError.__init__ (source lines 37-39): the message is the fixed
template formatted with the diagnostic argument. -/
def ParserError.ofExtra (extra : Str) : ParserError :=
  ⟨pyFormat0 parserErrorTemplate extra⟩

/-- Module-level state of the parser package (source lines 44-49):
use_c records whether the CTokenizer import succeeded and
cTokenizerLoaded whether the CTokenizer name is bound to the class
rather than None.  In Python both are module globals and stay mutable
after import. -/
structure ModuleState where
  use_c : Bool
  cTokenizerLoaded : Bool

/-- Module state produced by the import block itself (source lines
44-49): a successful native-module import sets both globals, a failed
one leaves CTokenizer as None and use_c false. -/
def initialModuleState (cImportOk : Bool) : ModuleState :=
  ⟨cImportOk, cImportOk⟩

/-- The two tokenizer backends the orchestrator can store. -/
inductive TokenizerBackend where
  | c
  | py
deriving DecidableEq

/-- Internal per-call state of a tokenizer instance.
Modelled from the spec: section 5: the tokenizer module is not part of
the excerpt; its instance state is the cursor and the context stack,
reused and reset per call. -/
structure TokenizerState where
  cursor : Nat
  stack : List Nat

/-- State of a freshly constructed tokenizer. -/
def TokenizerState.fresh : TokenizerState := ⟨0, []⟩

/-- Stateful tokenize of the pure-Python backend.
Modelled from the spec: section 5: the cursor and stack are reset at the
start of each call, so the emitted tokens are exactly those of the pure
scan, independent of the state left by any earlier call; the call
returns with the cursor at the end of the input and the context stack
popped back empty. -/
def Tokenizer.tokenizeSt (_st : TokenizerState) (text : Str) (context : Nat)
    (skip : Bool) : List Token × TokenizerState :=
  (Tokenizer.tokenize text context skip, ⟨text.length, []⟩)

/-- Stateful tokenize of the native backend.
Modelled from the spec: section 6: the CTokenizer source is not part of
the excerpt; the spec requires it to honor the exact same tokenize
contract and token vocabulary as the pure implementation, so it is
modelled as that contract. -/
def CTokenizer.tokenizeSt (st : TokenizerState) (text : Str) (context : Nat)
    (skip : Bool) : List Token × TokenizerState :=
  Tokenizer.tokenizeSt st text context skip

/-- Internal state of a builder instance: its frame stack.
Modelled from the spec: sections 4.2 and 5. -/
abbrev BuilderState := List Frame

/-- Stateful build.
Modelled from the spec: section 4.2: the frame stack is re-seeded with
exactly the root frame at the start of each call, so the result is that
of the pure single-pass build, and the stack is fully popped when the
call returns. -/
def Builder.buildSt (_st : BuilderState) (ts : List Token) :
    Option (List Node) × BuilderState :=
  (Builder.build ts, [])

/-- Parser instance (source lines 53-74): it owns a tokenizer whose
backend was chosen at construction, and a builder; both are stored on
the instance (self._tokenizer, self._builder). -/
structure Parser where
  backend : TokenizerBackend
  tokSt : TokenizerState
  bldSt : BuilderState

/-- Parser.__init__ (source lines 69-74): if use_c and CTokenizer are
truthy at construction time, store a CTokenizer instance, else store a
pure-Python Tokenizer instance; also store a fresh Builder. -/
def mkParser (m : ModuleState) : Parser :=
  { backend :=
      if m.use_c ∧ m.cTokenizerLoaded then TokenizerBackend.c else TokenizerBackend.py,
    tokSt := TokenizerState.fresh,
    bldSt := [] }

/-- Dispatch to the tokenize of the stored backend. -/
def backendTokenizeSt : TokenizerBackend → TokenizerState → Str → Nat → Bool →
    List Token × TokenizerState
  | TokenizerBackend.c, st, text, context, skip => CTokenizer.tokenizeSt st text context skip
  | TokenizerBackend.py, st, text, context, skip => Tokenizer.tokenizeSt st text context skip

/-- Parser.parse (source lines 76-94): tokens are produced by the stored
tokenizer, fed to the stored builder, and the resulting tree is returned
unchanged.  The body references only the instance's own attributes —
no module global — which is why the module state argument is unused
here.  A build failure is the internal-error signal (ParserError); the
body contains no handler, so the signal would propagate to the caller
unrecovered; it is reported here as the none result.  The updated
instance accompanies the result to track the instance-owned state. -/
def Parser.parseSt (_m : ModuleState) (p : Parser) (text : Str) (context : Nat)
    (skip : Bool) : Option (List Node) × Parser :=
  let tr := backendTokenizeSt p.backend p.tokSt text context skip
  let br := Builder.buildSt p.bldSt tr.1
  (br.1, { p with tokSt := tr.2, bldSt := br.2 })

/-- Parser.parse with the source's default arguments, context=0 and
skip_style_tags=False (source line 76). -/
def Parser.parseDefaultSt (m : ModuleState) (p : Parser) (text : Str) :
    Option (List Node) × Parser :=
  Parser.parseSt m p text 0 false

/-- Whatever backend an instance stores and whatever internal state it
carries, the tree its parse returns is the pure pipeline's tree. -/
theorem parseSt_eq_pipeline (m : ModuleState) (p : Parser) (text : Str)
    (context : Nat) (skip : Bool) :
    (Parser.parseSt m p text context skip).1 = pipeline text context skip := by
  cases hb : p.backend <;>
    simp [Parser.parseSt, backendTokenizeSt, hb, CTokenizer.tokenizeSt,
      Tokenizer.tokenizeSt, Builder.buildSt, pipeline]

/-- Concrete input of the round-trip claim: two opening braces followed
by the word unclosed. -/
def unclosedInput : Str := obChar :: obChar :: "unclosed".toList

/-- Concrete input of the style-tag claim: the word with a question mark
wrapped in double apostrophes. -/
def boldInput : Str := aposChar :: aposChar :: "bold?".toList ++ [aposChar, aposChar]

/-- Family of nested-template inputs: k opening double-braces, one
letter, k closing double-braces. -/
def nestInput (k : Nat) : Str :=
  List.replicate (2 * k) obChar ++ 'x' :: List.replicate (2 * k) cbChar

/-! ## The claimed properties -/

/-- C1: for every input string (including the empty string, pure text,
and arbitrarily malformed markup), stringifying the tree returned by
Parser.parse reproduces the input exactly; in particular the input of
two opening braces followed by the word unclosed parses to a tree whose
single child is a Text node containing exactly that string. -/
theorem C1_roundtrip :
    (∀ (m : ModuleState) (p : Parser) (s : Str),
      ∃ ns, (Parser.parseDefaultSt m p s).1 = some ns ∧ nodesStr ns = s) ∧
    (∀ (m : ModuleState) (p : Parser),
      (Parser.parseDefaultSt m p unclosedInput).1 = some [Node.text unclosedInput]) := by
  constructor
  · intro m p s
    obtain ⟨ns, h1, h2⟩ := pipeline_ok s 0 false
    refine ⟨ns, ?_, h2⟩
    rw [Parser.parseDefaultSt, parseSt_eq_pipeline]
    exact h1
  · intro m p
    rw [Parser.parseDefaultSt, parseSt_eq_pipeline]
    rfl

/-- C2: Parser.parse returns exactly the builder applied to the
tokenizer's output — the orchestrator adds no transformation of its own
— and the default arguments are context zero and skip_style_tags
false. -/
theorem C2_parse_is_build_of_tokenize :
    (∀ (m : ModuleState) (p : Parser) (text : Str) (context : Nat) (skip : Bool),
      (Parser.parseSt m p text context skip).1
        = Builder.build (Tokenizer.tokenize text context skip)) ∧
    (∀ (m : ModuleState) (p : Parser) (text : Str),
      Parser.parseDefaultSt m p text = Parser.parseSt m p text 0 false) := by
  constructor
  · intro m p text context skip
    exact parseSt_eq_pipeline m p text context skip
  · intro m p text
    rfl

/-- C3: Parser.parse never produces the internal-error signal for any
markup input, however malformed: every input yields a tree.  (The
source's parse body contains no handler, so the signal, which this
theorem shows is never produced by markup, could only propagate
unrecovered.) -/
theorem C3_no_internal_error :
    ∀ (m : ModuleState) (p : Parser) (text : Str) (context : Nat) (skip : Bool),
      (Parser.parseSt m p text context skip).1 ≠ none := by
  intro m p text context skip
  obtain ⟨ns, h1, _⟩ := pipeline_ok text context skip
  rw [parseSt_eq_pipeline, h1]
  simp

/-- C4: constructing a Parser always succeeds and selects the native
backend exactly when the CTokenizer import succeeded, the pure-Python
backend otherwise; both backends honor the same tokenize contract, so
the tree parse returns is the same whichever backend the instance
stores. -/
theorem C4_backend_selection_equivalence :
    (∀ ok : Bool, (mkParser (initialModuleState ok)).backend
        = if ok then TokenizerBackend.c else TokenizerBackend.py) ∧
    (∀ (m1 m2 ma mb : ModuleState) (text : Str) (context : Nat) (skip : Bool),
      (Parser.parseSt ma (mkParser m1) text context skip).1
        = (Parser.parseSt mb (mkParser m2) text context skip).1) := by
  constructor
  · intro ok
    cases ok <;> simp [mkParser, initialModuleState]
  · intro m1 m2 ma mb text context skip
    rw [parseSt_eq_pipeline, parseSt_eq_pipeline]

/-- C5: parsing is deterministic and pure: a second parse of the same
triple on the same instance (carrying whatever internal state the first
call left behind) yields the same tree as the first call. -/
theorem C5_deterministic :
    ∀ (m : ModuleState) (p : Parser) (text : Str) (context : Nat) (skip : Bool),
      (Parser.parseSt m (Parser.parseSt m p text context skip).2 text context skip).1
        = (Parser.parseSt m p text context skip).1 := by
  intro m p text context skip
  rw [parseSt_eq_pipeline, parseSt_eq_pipeline]

/-- C6: sequential reuse of one Parser is safe: a parse on an instance
that already completed an earlier parse (of any input, under any module
state) returns the same tree as the same parse on a freshly constructed
Parser — no state from the earlier call leaks into the later result. -/
theorem C6_sequential_reuse :
    ∀ (m m1 m2 m3 : ModuleState) (t0 : Str) (c0 : Nat) (k0 : Bool)
      (text : Str) (context : Nat) (skip : Bool),
      (Parser.parseSt m2 (Parser.parseSt m1 (mkParser m) t0 c0 k0).2 text context skip).1
        = (Parser.parseSt m3 (mkParser m) text context skip).1 := by
  intro m m1 m2 m3 t0 c0 k0 text context skip
  rw [parseSt_eq_pipeline, parseSt_eq_pipeline]

/-- C7 as stated is false on this code: the backend a Parser uses is
determined by the module-level mutable use_c flag at construction time;
with CTokenizer loaded, flipping use_c flips the stored backend of a
newly constructed Parser. -/
theorem C7_counterexample :
    ¬ ((mkParser ⟨true, true⟩).backend = (mkParser ⟨false, true⟩).backend) := by
  simp [mkParser]

/-- C7 amended: the backend choice is resolved once, at Parser
construction, by consulting the module-level use_c flag and CTokenizer
availability at that moment, and is stored per instance; after
construction the instance's parse consults no module-level state, so
later mutation of the module flags cannot change which backend an
existing Parser uses. -/
theorem C7_backend_resolved_at_construction :
    (∀ m : ModuleState, (mkParser m).backend
        = if m.use_c ∧ m.cTokenizerLoaded then TokenizerBackend.c
          else TokenizerBackend.py) ∧
    (∀ (m1 m2 : ModuleState) (p : Parser) (text : Str) (context : Nat) (skip : Bool),
      Parser.parseSt m1 p text context skip = Parser.parseSt m2 p text context skip) := by
  exact ⟨fun m => rfl, fun m1 m2 p text context skip => rfl⟩

/-- C8: the internal-error signal carries its diagnostic context: for
every diagnostic string, the constructed ParserError's message is
exactly the fixed sentence followed by the diagnostic string and a
final period. -/
theorem C8_parser_error_message :
    ∀ extra : Str, (ParserError.ofExtra extra).msg
      = "This is a bug and should be reported. Info: ".toList ++ extra ++ ['.'] := by
  intro extra
  rfl

/-- C9: parsing the double-apostrophe-wrapped input with
skip_style_tags set yields a single Text node holding the literal
apostrophes and text; with the flag unset it yields a styled run node
containing the inner text. -/
theorem C9_skip_style_tags :
    ∀ (m : ModuleState) (p : Parser),
      (Parser.parseSt m p boldInput 0 true).1 = some [Node.text boldInput] ∧
      (Parser.parseSt m p boldInput 0 false).1
        = some [Node.styled [Node.text "bold?".toList]] := by
  intro m p
  constructor
  · rw [parseSt_eq_pipeline]
    rfl
  · rw [parseSt_eq_pipeline]
    rfl

set_option maxRecDepth 40000 in
/-- C10: input nested beyond the tokenizer's safety bound degrades the
excess levels to literal text rather than erroring: every input — in
particular one of arbitrary nesting depth — parses without an internal
error to a tree that round-trips; and on the concrete input with one
more nesting level than the bound the parse yields a round-tripping
tree containing exactly maxDepth template nodes, the excess innermost
level having become literal text. -/
theorem C10_depth_bound :
    (∀ (m : ModuleState) (p : Parser) (s : Str) (context : Nat) (skip : Bool),
      (Parser.parseSt m p s context skip).1 ≠ none ∧
      Option.map nodesStr (Parser.parseSt m p s context skip).1 = some s) ∧
    (Option.map nodesTplCount (pipeline (nestInput (maxDepth + 1)) 0 false)
        = some maxDepth ∧
      Option.map nodesStr (pipeline (nestInput (maxDepth + 1)) 0 false)
        = some (nestInput (maxDepth + 1))) := by
  constructor
  · intro m p s context skip
    obtain ⟨ns, h1, h2⟩ := pipeline_ok s context skip
    rw [parseSt_eq_pipeline, h1]
    constructor
    · simp
    · simp [h2]
  · constructor
    · decide
    · decide
